import Mathlib

/-!
A shallow embedding of `validator.go` (package `validator`): a struct-field
validator driven by `validate:"..."` tags.  Go strings are modelled as Lean
`String`s, Go `int`/`int64` as `Int` (every value the code manipulates stays
far from overflow, and `strconv.Atoi` itself range-checks), Go slices as Lean
lists, and the append-only `ValidationErrors` accumulator as a `List`.
Panics (out-of-range indexing, method call on a nil interface) are made
explicit: parsing returns an `Option`, and the top-level result type has a
`panicked` constructor.
-/

namespace GoValidator

/-- The error values of the package: the three sentinel errors declared at the
top of `validator.go`, plus `errors.New` messages (identified by their text). -/
inductive Err where
  | notStruct
  | invalidValidatorSyntax
  | validateForUnexportedFields
  | msg (s : String)
deriving DecidableEq, Repr

/-- `type ValidationError struct { Err error }`. -/
structure ValidationError where
  err : Err
deriving DecidableEq, Repr

/-- A Go runtime value, as far as `CheckConstraints` can observe it through
`reflect`: a string-kind value, an int-kind value, a slice-kind value, or a
value of any other kind.  Non-string, non-int, non-slice kinds only matter
through their `reflect.Value.String()` rendering, which is
`"<" + typeName + " Value>"`, so they are represented by their type name alone
(`vslice` also carries its type name for the same reason). -/
inductive Value where
  | vstr (s : String)
  | vint (n : Int)
  | vslice (typeName : String) (elems : List Value)
  | vother (typeName : String)

/-- One declared struct field as the validator sees it: name, exported flag,
the `validate` tag (`""` when absent), and the field's runtime value. -/
structure Field where
  name : String
  exported : Bool
  tag : String
  value : Value

/-- The argument of `Validate(v any)`: a nil interface, a struct value, or a
value of any other kind (pointer, int, string, ...). -/
inductive GoAny where
  | anil
  | astruct (fields : List Field)
  | aother (kindName : String)

/-- The observable outcome of `Validate`: a runtime panic, a nil error
(success), a bare error value, or a `ValidationErrors` list. -/
inductive VResult where
  | panicked
  | ok
  | err (e : Err)
  | errs (l : List ValidationError)
deriving DecidableEq, Repr

/-- `type Constraints struct { len int; in []string; min int; max int }`.
A nil `in` slice is `none`; a non-nil slice (possibly holding empty tokens)
is `some`. -/
structure Constraints where
  len : Int
  in_ : Option (List String)
  min : Int
  max : Int
deriving DecidableEq, Repr

/-- `NewConstraints()` — every numeric constraint starts at the `-1`
sentinel and `in` starts nil. -/
def NewConstraints : Constraints := ⟨-1, none, -1, -1⟩

/-- `strings.Split` on a one-character separator (the code only splits on
`";"`, `":"` and `","`), over the character list: Go semantics, so splitting
the empty string yields `[""]` and adjacent separators yield empty pieces. -/
def splitCharList (sep : Char) : List Char → List (List Char)
  | [] => [[]]
  | c :: rest =>
    let r := splitCharList sep rest
    if c = sep then [] :: r
    else
      match r with
      | [] => [[c]]
      | g :: gs => (c :: g) :: gs

/-- `strings.Split s sep` for a one-character `sep`, on Lean strings. -/
def splitChar (sep : Char) (s : String) : List String :=
  (splitCharList sep s.toList).map (fun cs => String.mk cs)

/-- The UTF-8 byte width of one character — Go strings are byte arrays, so
`len(s)` counts bytes, not code points. -/
def charUtf8Size (c : Char) : Nat :=
  if c.toNat < 128 then 1
  else if c.toNat < 2048 then 2
  else if c.toNat < 65536 then 3
  else 4

/-- Go `len(s)` on a string: its UTF-8 byte length, as an `Int` so it can be
compared against constraint bounds. -/
def goLen (s : String) : Int :=
  ((s.toList.map charUtf8Size).sum : Nat)

/-- `strconv.Atoi`: optional sign, then at least one ASCII digit; returns the
value and a success flag.  On a syntax error Go returns `(0, err)`; on a
range error it returns the clamped 64-bit value together with the error, and
both cases are modelled (the flag is the "err == nil" observation). -/
def goAtoi (s : String) : Int × Bool :=
  let cs := s.toList
  let signed : Bool × List Char :=
    match cs with
    | '-' :: rest => (true, rest)
    | '+' :: rest => (false, rest)
    | _ => (false, cs)
  let ds := signed.2
  if ds.isEmpty || !(ds.all Char.isDigit) then (0, false)
  else
    let m : Nat := ds.foldl (fun a c => a * 10 + (c.toNat - 48)) 0
    let v : Int := if signed.1 then -(m : Int) else (m : Int)
    if v > 9223372036854775807 then (9223372036854775807, false)
    else if v < -9223372036854775808 then (-9223372036854775808, false)
    else (v, true)

/-- `ParseInt` of the source: `strconv.Atoi`, with any failure collapsed to
`ErrInvalidValidatorSyntax` (so only success/failure and the value matter). -/
def ParseInt (s : String) : Option Int :=
  let p := goAtoi s
  if p.2 then some p.1 else none

/-- `reflect.Value.String()`: the string itself for a string-kind value, and
the debug rendering `"<T Value>"` for every other kind. -/
def valString : Value → String
  | .vstr s => s
  | .vint _ => "<int Value>"
  | .vslice t _ => "<" ++ t ++ " Value>"
  | .vother t => "<" ++ t ++ " Value>"

def strMaxMsg (f : String) : String := "field: " ++ f ++ " err: length can't be more than max"

def strMinMsg (f : String) : String := "field: " ++ f ++ " err: length can't be less than min"

def strLenMsg (f : String) : String := "field: " ++ f ++ " err: length must be equal to len"

def notInMsg (f : String) : String := "field: " ++ f ++ " err: value is not contained in the 'in'"

def intMaxMsg (f : String) : String := "field: " ++ f ++ " err: value can't be more than max"

def intMinMsg (f : String) : String := "field: " ++ f ++ " err: value can't be less than min"

/-- One iteration group of the `switch s[0]` body in `ParseConstraints`:
process a single `;`-clause.  `s[1]` on a clause whose recognized key has no
`:`-separated value is an out-of-range index, i.e. a panic, i.e. `none`. -/
def parseOne (c : Constraints) (errs : List ValidationError) (con : String) :
    Option (Constraints × List ValidationError) :=
  match splitChar ':' con with
  | [] => some (c, errs)
  | key :: rest =>
    match key with
    | "max" =>
      match rest.head? with
      | none => none
      | some v =>
        match ParseInt v with
        | none => some (c, errs ++ [⟨Err.invalidValidatorSyntax⟩])
        | some n => some ({ c with max := n }, errs)
    | "min" =>
      match rest.head? with
      | none => none
      | some v =>
        match ParseInt v with
        | none => some (c, errs ++ [⟨Err.invalidValidatorSyntax⟩])
        | some n => some ({ c with min := n }, errs)
    | "len" =>
      match rest.head? with
      | none => none
      | some v =>
        match ParseInt v with
        | none => some (c, errs ++ [⟨Err.invalidValidatorSyntax⟩])
        | some n =>
          if n < 0 then some (c, errs ++ [⟨Err.msg "wrong length"⟩])
          else some ({ c with len := n }, errs)
    | "in" =>
      match rest.head? with
      | none => none
      | some v => some ({ c with in_ := some (splitChar ',' v) }, errs)
    | _ => some (c, errs)

/-- The `for _, con := range cons` loop of `ParseConstraints`. -/
def parseLoop : List String → Constraints → List ValidationError →
    Option (Constraints × List ValidationError)
  | [], c, errs => some (c, errs)
  | con :: rest, c, errs =>
    match parseOne c errs con with
    | none => none
    | some p => parseLoop rest p.1 p.2

/-- `ParseConstraints`, taking the field's `validate` tag directly (the Go
function receives the `reflect.StructField` and reads the tag itself). -/
def ParseConstraints (tag : String) (errs : List ValidationError) :
    Option (Constraints × List ValidationError) :=
  if tag.length ≠ 0 then parseLoop (splitChar ';' tag) NewConstraints errs
  else some (NewConstraints, errs)

/-- `checkStringConstraints`. -/
def checkStringConstraints (val : Value) (fieldName : String) (c : Constraints)
    (errs0 : List ValidationError) : List ValidationError :=
  let errs1 :=
    if c.max ≠ -1 ∧ goLen (valString val) > c.max then errs0 ++ [⟨Err.msg (strMaxMsg fieldName)⟩]
    else errs0
  let errs2 :=
    if c.min ≠ -1 ∧ goLen (valString val) < c.min then errs1 ++ [⟨Err.msg (strMinMsg fieldName)⟩]
    else errs1
  let errs3 :=
    if c.len ≠ -1 ∧ goLen (valString val) ≠ c.len then errs2 ++ [⟨Err.msg (strLenMsg fieldName)⟩]
    else errs2
  match c.in_ with
  | none => errs3
  | some tokens =>
    if tokens.any (fun t => valString val = t) then errs3
    else errs3 ++ [⟨Err.msg (notInMsg fieldName)⟩]

/-- The `for _, s := range constraints.in` loop of `checkIntConstraints`:
`num, err := strconv.Atoi(s)` appends an `InvalidSyntax` violation on error
but still compares the returned `num` (0 on a syntax error) against the
value, and breaks on the first match.  Returns the `find` flag and the
accumulated violations. -/
def intInAux (n : Int) : List String → List ValidationError → Bool × List ValidationError
  | [], errs => (false, errs)
  | t :: rest, errs =>
    let p := goAtoi t
    let errs1 := if p.2 then errs else errs ++ [⟨Err.invalidValidatorSyntax⟩]
    if n = p.1 then (true, errs1) else intInAux n rest errs1

/-- `checkIntConstraints` (its `reflect.Value` argument has int kind on every
call path, so the embedded version takes `val.Int()` directly). -/
def checkIntConstraints (n : Int) (fieldName : String) (c : Constraints)
    (errs0 : List ValidationError) : List ValidationError :=
  let errs1 :=
    if c.max ≠ -1 ∧ n > c.max then errs0 ++ [⟨Err.msg (intMaxMsg fieldName)⟩] else errs0
  let errs2 :=
    if c.min ≠ -1 ∧ n < c.min then errs1 ++ [⟨Err.msg (intMinMsg fieldName)⟩] else errs1
  let errs3 :=
    if c.len ≠ -1 then errs2 ++ [⟨Err.invalidValidatorSyntax⟩] else errs2
  match c.in_ with
  | none => errs3
  | some tokens =>
    let r := intInAux n tokens errs3
    if r.1 then r.2 else r.2 ++ [⟨Err.msg (notInMsg fieldName)⟩]

/-- The body of the `checkSliceConstraints` loop: `val.Index(i).Kind() ==
reflect.Int` selects the int check, everything else the string check. -/
def checkElem (v : Value) (fieldName : String) (c : Constraints)
    (errs : List ValidationError) : List ValidationError :=
  match v with
  | .vint n => checkIntConstraints n fieldName c errs
  | _ => checkStringConstraints v fieldName c errs

/-- The indexed `for i` loop of `checkSliceConstraints`; the label suffix is
`" " + strconv.Itoa(i) + "th element"`. -/
def checkSliceAux (fieldName : String) (c : Constraints) :
    Nat → List Value → List ValidationError → List ValidationError
  | _, [], errs => errs
  | i, v :: rest, errs =>
    checkSliceAux fieldName c (i + 1) rest
      (checkElem v (fieldName ++ " " ++ Nat.repr i ++ "th element") c errs)

/-- `checkSliceConstraints` on the slice's element list. -/
def checkSliceConstraints (elems : List Value) (fieldName : String) (c : Constraints)
    (errs : List ValidationError) : List ValidationError :=
  checkSliceAux fieldName c 0 elems errs

/-- `CheckConstraints`: kind dispatch — String, Int, Slice, and a silent pass
for every other kind. -/
def CheckConstraints (val : Value) (fieldName : String) (c : Constraints)
    (errs : List ValidationError) : List ValidationError :=
  match val with
  | .vstr _ => checkStringConstraints val fieldName c errs
  | .vint n => checkIntConstraints n fieldName c errs
  | .vslice _ elems => checkSliceConstraints elems fieldName c errs
  | .vother _ => errs

/-- The per-field loop of `Validate`: an unexported field with a non-empty
tag returns a fresh one-element `ValidationErrors` at once (dropping the
accumulator); otherwise parse then check, threading the accumulator. -/
def validateFields : List Field → List ValidationError → VResult
  | [], errs => if errs.length = 0 then .ok else .errs errs
  | f :: rest, errs =>
    if f.exported = false ∧ f.tag.length ≠ 0 then
      .errs [⟨Err.validateForUnexportedFields⟩]
    else
      match ParseConstraints f.tag errs with
      | none => .panicked
      | some p => validateFields rest (CheckConstraints f.value f.name p.1 p.2)

/-- `Validate(v any)`.  `reflect.TypeOf` of a nil interface returns nil, so
the immediate `.Kind()` call panics; a non-struct kind returns the bare
`ErrNotStruct`; a struct runs the field loop. -/
def Validate : GoAny → VResult
  | .anil => .panicked
  | .astruct fields => validateFields fields []
  | .aother _ => .err Err.notStruct

/-! ## Specification-side decompositions

Each check of `checkStringConstraints` / `checkIntConstraints` is isolated as
a standalone violation-list producer, so ordering and presence claims can be
stated as equations between the code's accumulator-threading functions and
the concatenation of these parts. -/

/-- The `max` check of `checkStringConstraints`, in isolation. -/
def strMaxErrs (v : Value) (f : String) (c : Constraints) : List ValidationError :=
  if c.max ≠ -1 ∧ goLen (valString v) > c.max then [⟨Err.msg (strMaxMsg f)⟩] else []

/-- The `min` check of `checkStringConstraints`, in isolation. -/
def strMinErrs (v : Value) (f : String) (c : Constraints) : List ValidationError :=
  if c.min ≠ -1 ∧ goLen (valString v) < c.min then [⟨Err.msg (strMinMsg f)⟩] else []

/-- The `len` check of `checkStringConstraints`, in isolation. -/
def strLenErrs (v : Value) (f : String) (c : Constraints) : List ValidationError :=
  if c.len ≠ -1 ∧ goLen (valString v) ≠ c.len then [⟨Err.msg (strLenMsg f)⟩] else []

/-- The `in` check of `checkStringConstraints`, in isolation. -/
def strInErrs (v : Value) (f : String) (c : Constraints) : List ValidationError :=
  match c.in_ with
  | none => []
  | some tokens =>
    if tokens.any (fun t => valString v = t) then [] else [⟨Err.msg (notInMsg f)⟩]

/-- The `max` check of `checkIntConstraints`, in isolation. -/
def intMaxErrs (n : Int) (f : String) (c : Constraints) : List ValidationError :=
  if c.max ≠ -1 ∧ n > c.max then [⟨Err.msg (intMaxMsg f)⟩] else []

/-- The `min` check of `checkIntConstraints`, in isolation. -/
def intMinErrs (n : Int) (f : String) (c : Constraints) : List ValidationError :=
  if c.min ≠ -1 ∧ n < c.min then [⟨Err.msg (intMinMsg f)⟩] else []

/-- The `len` check of `checkIntConstraints`, in isolation: any present `len`
is an unconditional syntax violation on an integer field. -/
def intLenErrs (_f : String) (c : Constraints) : List ValidationError :=
  if c.len ≠ -1 then [⟨Err.invalidValidatorSyntax⟩] else []

/-- The `in` check of `checkIntConstraints`, in isolation. -/
def intInErrs (n : Int) (f : String) (c : Constraints) : List ValidationError :=
  match c.in_ with
  | none => []
  | some tokens =>
    if (intInAux n tokens []).1 then (intInAux n tokens []).2
    else (intInAux n tokens []).2 ++ [⟨Err.msg (notInMsg f)⟩]

/-- All violations one element-like value contributes, as the in-order
concatenation max → min → len → in of the isolated checks, int checks for an
int-kind value and string checks for everything else. -/
def elemViolations (v : Value) (f : String) (c : Constraints) : List ValidationError :=
  match v with
  | .vint n => intMaxErrs n f c ++ intMinErrs n f c ++ intLenErrs f c ++ intInErrs n f c
  | .vstr s => strMaxErrs (.vstr s) f c ++ strMinErrs (.vstr s) f c ++
      strLenErrs (.vstr s) f c ++ strInErrs (.vstr s) f c
  | .vslice t es => strMaxErrs (.vslice t es) f c ++ strMinErrs (.vslice t es) f c ++
      strLenErrs (.vslice t es) f c ++ strInErrs (.vslice t es) f c
  | .vother t => strMaxErrs (.vother t) f c ++ strMinErrs (.vother t) f c ++
      strLenErrs (.vother t) f c ++ strInErrs (.vother t) f c

/-- All violations `CheckConstraints` contributes for one field value, with
slices spelled out element by element in index order. -/
def checkParts (v : Value) (nm : String) (c : Constraints) : List ValidationError :=
  match v with
  | .vstr _ => elemViolations v nm c
  | .vint _ => elemViolations v nm c
  | .vslice _ elems =>
    elems.enum.flatMap (fun q => elemViolations q.2 (nm ++ " " ++ Nat.repr q.1 ++ "th element") c)
  | .vother _ => []

/-- Everything one field contributes to the violation list: its parse errors
(in rule-clause order) followed by its check violations. -/
def fieldViolations (f : Field) : List ValidationError :=
  match ParseConstraints f.tag [] with
  | none => []
  | some p => p.2 ++ checkParts f.value f.name p.1

/-- Whether parsing this tag hits the out-of-range `s[1]` access (a panic).
The panic depends only on the tag, not on the error accumulator. -/
def parsePanics (tag : String) : Bool := (ParseConstraints tag []).isNone

/-- A field that neither triggers the unexported-field abort nor a parse
panic, so the per-field loop moves past it. -/
def okField (f : Field) : Bool :=
  (f.exported || f.tag.length == 0) && !(parsePanics f.tag)

/-! ## Accumulator framing and decomposition lemmas -/

theorem checkString_decomp (v : Value) (f : String) (c : Constraints)
    (errs : List ValidationError) :
    checkStringConstraints v f c errs =
      errs ++ strMaxErrs v f c ++ strMinErrs v f c ++ strLenErrs v f c ++ strInErrs v f c := by
  rcases c with ⟨cl, ci, cmi, cma⟩
  simp only [checkStringConstraints, strMaxErrs, strMinErrs, strLenErrs, strInErrs]
  cases ci with
  | none => split_ifs <;> simp
  | some ts =>
    split_ifs <;> simp
    all_goals (split_ifs <;> simp)

theorem intInAux_spec (n : Int) : ∀ (ts : List String) (errs : List ValidationError),
    intInAux n ts errs =
      (ts.any (fun t => (goAtoi t).1 == n),
       errs ++ (ts.take (ts.findIdx (fun t => (goAtoi t).1 == n) + 1)).filterMap
           (fun t => if (goAtoi t).2 then none else some ⟨Err.invalidValidatorSyntax⟩)) := by
  intro ts
  induction ts with
  | nil => intro errs; simp [intInAux]
  | cons t rest ih =>
    intro errs
    by_cases h : n = (goAtoi t).1
    · have hp : ((goAtoi t).1 == n) = true := by simp [h.symm]
      simp only [intInAux, List.any_cons, List.findIdx_cons, hp, cond_true, Nat.zero_add,
        List.take_succ_cons, List.take_zero, List.filterMap_cons, Bool.true_or]
      rw [if_pos h]
      split_ifs <;> simp
    · have hp : ((goAtoi t).1 == n) = false := by simp [Ne.symm h]
      simp only [intInAux, List.any_cons, List.findIdx_cons, hp, cond_false, Bool.false_or,
        List.take_succ_cons, List.filterMap_cons]
      rw [if_neg h, ih]
      split_ifs <;> simp

theorem checkInt_decomp (n : Int) (f : String) (c : Constraints)
    (errs : List ValidationError) :
    checkIntConstraints n f c errs =
      errs ++ intMaxErrs n f c ++ intMinErrs n f c ++ intLenErrs f c ++ intInErrs n f c := by
  rcases c with ⟨cl, ci, cmi, cma⟩
  simp only [checkIntConstraints, intMaxErrs, intMinErrs, intLenErrs, intInErrs]
  cases ci with
  | none => split_ifs <;> simp
  | some ts =>
    simp only [intInAux_spec]
    split_ifs <;> simp

theorem checkElem_decomp (v : Value) (f : String) (c : Constraints)
    (errs : List ValidationError) :
    checkElem v f c errs = errs ++ elemViolations v f c := by
  cases v <;>
    simp [checkElem, elemViolations, checkString_decomp, checkInt_decomp, List.append_assoc]

theorem checkSliceAux_decomp (f : String) (c : Constraints) :
    ∀ (elems : List Value) (i : Nat) (errs : List ValidationError),
      checkSliceAux f c i elems errs =
        errs ++ (List.enumFrom i elems).flatMap
          (fun q => elemViolations q.2 (f ++ " " ++ Nat.repr q.1 ++ "th element") c) := by
  intro elems
  induction elems with
  | nil => intro i errs; simp [checkSliceAux]
  | cons v rest ih =>
    intro i errs
    have henum : List.enumFrom i (v :: rest) = (i, v) :: List.enumFrom (i + 1) rest := rfl
    rw [checkSliceAux, checkElem_decomp, ih, henum]
    simp [List.append_assoc]

theorem CheckConstraints_decomp (v : Value) (nm : String) (c : Constraints)
    (errs : List ValidationError) :
    CheckConstraints v nm c errs = errs ++ checkParts v nm c := by
  cases v with
  | vstr s => simp [CheckConstraints, checkParts, checkString_decomp, elemViolations]
  | vint n => simp [CheckConstraints, checkParts, checkInt_decomp, elemViolations]
  | vslice t elems =>
    simp [CheckConstraints, checkParts, checkSliceConstraints, checkSliceAux_decomp, List.enum]
  | vother t => simp [CheckConstraints, checkParts]

theorem parseOne_frame (c : Constraints) (errs : List ValidationError) (con : String) :
    parseOne c errs con = (parseOne c [] con).map (fun p => (p.1, errs ++ p.2)) := by
  unfold parseOne
  cases splitChar ':' con with
  | nil => simp
  | cons key rest =>
    dsimp only
    cases rest with
    | nil => split <;> simp
    | cons v vs =>
      split
      · cases hpi : ParseInt v <;> simp [hpi]
      · cases hpi : ParseInt v <;> simp [hpi]
      · cases hpi : ParseInt v with
        | none => simp [hpi]
        | some m =>
          simp only [List.head?_cons, hpi]
          split_ifs <;> simp
      · simp
      · simp

theorem parseLoop_frame : ∀ (cons : List String) (c : Constraints)
    (errs : List ValidationError),
    parseLoop cons c errs = (parseLoop cons c []).map (fun p => (p.1, errs ++ p.2)) := by
  intro cons
  induction cons with
  | nil => intro c errs; simp [parseLoop]
  | cons con rest ih =>
    intro c errs
    simp only [parseLoop]
    rw [parseOne_frame c errs con]
    cases h : parseOne c [] con with
    | none => rfl
    | some p =>
      simp only [Option.map_some']
      rw [ih p.1 (p.2), ih p.1 (errs ++ p.2)]
      cases parseLoop rest p.1 [] <;> simp

theorem ParseConstraints_frame (tag : String) (errs : List ValidationError) :
    ParseConstraints tag errs = (ParseConstraints tag []).map (fun p => (p.1, errs ++ p.2)) := by
  unfold ParseConstraints
  split_ifs with h
  · exact parseLoop_frame _ _ _
  · simp

theorem validateFields_decomp : ∀ (fields : List Field),
    (∀ f ∈ fields, okField f = true) → ∀ (errs : List ValidationError),
    validateFields fields errs =
      (if (errs ++ fields.flatMap fieldViolations).length = 0 then .ok
       else .errs (errs ++ fields.flatMap fieldViolations)) := by
  intro fields
  induction fields with
  | nil => intro _ errs; simp [validateFields]
  | cons f rest ih =>
    intro h errs
    have hf : okField f = true := h f (List.mem_cons_self f rest)
    have hrest : ∀ g ∈ rest, okField g = true := fun g hg => h g (List.mem_cons_of_mem f hg)
    rw [okField, Bool.and_eq_true, Bool.or_eq_true, Bool.not_eq_true'] at hf
    obtain ⟨hpass, hnp⟩ := hf
    have hskip : ¬(f.exported = false ∧ f.tag.length ≠ 0) := by
      rcases hpass with hx | hx
      · exact fun hc => by rw [hc.1] at hx; cases hx
      · exact fun hc => hc.2 (by simpa using hx)
    rw [validateFields, if_neg hskip]
    rw [parsePanics, Option.isNone_eq_false_iff, Option.isSome_iff_exists] at hnp
    obtain ⟨p0, hp0⟩ := hnp
    rw [ParseConstraints_frame, hp0]
    simp only [Option.map_some']
    rw [CheckConstraints_decomp, ih hrest]
    have hfv : fieldViolations f = p0.2 ++ checkParts f.value f.name p0.1 := by
      rw [fieldViolations, hp0]
    rw [List.flatMap_cons, hfv]
    simp [List.append_assoc]

/-! ## Claims -/

/-- Claim C1, counterexample.  The claim says a token of an integer `in`
constraint that fails to parse is skipped for the membership test, every
failing token emits its own `InvalidSyntax` violation, and membership holds
exactly when the value equals a successfully parsed token.  Both parts fail:
with value `0` and tokens `["abc"]` there is no successfully parsed token,
yet no "not contained" violation is emitted (the failed token is compared as
`0`, which matches); and with value `2` and tokens `["2", "abc"]` the loop
breaks at the first token, so the failing second token emits nothing. -/
theorem claim_C1_counterexample :
    checkIntConstraints 0 "f" ⟨-1, some ["abc"], -1, -1⟩ [] = [⟨Err.invalidValidatorSyntax⟩] ∧
    checkIntConstraints 2 "f" ⟨-1, some ["2", "abc"], -1, -1⟩ [] = [] := by
  decide

/-- Claim C1, amended: tokens of an integer `in` constraint are examined in
order up to and including the first token whose `Atoi` result (0 when parsing
fails) equals the field's value; each examined failing token emits one
`InvalidSyntax` violation; and the "not contained" violation is emitted
exactly when no token's `Atoi` result equals the value. -/
theorem claim_C1 (n : Int) (f : String) (tokens : List String)
    (errs : List ValidationError) :
    checkIntConstraints n f ⟨-1, some tokens, -1, -1⟩ errs =
      errs ++ (tokens.take (tokens.findIdx (fun t => (goAtoi t).1 == n) + 1)).filterMap
          (fun t => if (goAtoi t).2 then none else some ⟨Err.invalidValidatorSyntax⟩)
        ++ (if tokens.any (fun t => (goAtoi t).1 == n) then []
            else [⟨Err.msg (notInMsg f)⟩]) := by
  rw [checkInt_decomp]
  simp only [intMaxErrs, intMinErrs, intLenErrs, intInErrs, intInAux_spec]
  split_ifs <;> simp_all

/-- Claim C2, counterexample.  The claim says the `UnexportedFieldValidated`
fatal error is returned standalone and never embedded in a ViolationList; the
code returns it as the sole element of a `ValidationErrors` list (here also
discarding the min violation the first field would have contributed). -/
theorem claim_C2_counterexample :
    Validate (.astruct [⟨"a", true, "min:5", .vstr "x"⟩, ⟨"b", false, "max:1", .vint 0⟩]) =
      .errs [⟨Err.validateForUnexportedFields⟩] := by
  decide

/-- Claim C2, amended: a non-exported field carrying a non-empty rule string
makes the call fail immediately with a one-element ViolationList holding only
`UnexportedFieldValidated`; whatever violations were accumulated for earlier
fields (the arbitrary `errs` threaded into the loop) are discarded. -/
theorem claim_C2 (f : Field) (rest : List Field) (errs : List ValidationError)
    (hexp : f.exported = false) (htag : f.tag.length ≠ 0) :
    validateFields (f :: rest) errs = .errs [⟨Err.validateForUnexportedFields⟩] ∧
    Validate (.astruct (f :: rest)) = .errs [⟨Err.validateForUnexportedFields⟩] := by
  constructor
  · rw [validateFields, if_pos ⟨hexp, htag⟩]
  · show validateFields (f :: rest) [] = _
    rw [validateFields, if_pos ⟨hexp, htag⟩]

/-- Claim C2, witness: the amended claim applied to a concrete unexported
tagged field with a non-empty accumulator of earlier violations. -/
theorem claim_C2_witness :
    validateFields [⟨"b", false, "max:1", .vint 0⟩]
        [⟨Err.msg "field: a err: length can't be less than min"⟩] =
      .errs [⟨Err.validateForUnexportedFields⟩] ∧
    Validate (.astruct [⟨"b", false, "max:1", .vint 0⟩]) =
      .errs [⟨Err.validateForUnexportedFields⟩] :=
  claim_C2 ⟨"b", false, "max:1", .vint 0⟩ []
    [⟨Err.msg "field: a err: length can't be less than min"⟩] rfl (by decide)

/-- Claim C3, counterexample.  The claim says a present `max` bound `m`
triggers for every integer `m` including `-1`; but the rule `max:-1` parses
to the `-1` unset sentinel, so the value `5` passes unchecked (first
conjunct), even though the parse itself succeeds with no violation (second
conjunct).  A genuinely negative bound other than `-1` does work (third
conjunct: `max:-2` flags the value `-1`). -/
theorem claim_C3_counterexample :
    Validate (.astruct [⟨"A", true, "max:-1", .vint 5⟩]) = .ok ∧
    ParseConstraints "max:-1" [] = some (⟨-1, none, -1, -1⟩, []) ∧
    Validate (.astruct [⟨"A", true, "max:-2", .vint (-1)⟩]) =
      .errs [⟨Err.msg (intMaxMsg "A")⟩] := by
  decide

/-- Claim C3, amended: on an integer field (with `len` and `in` not in play),
a `max` bound yields the "more than max" violation exactly when the bound is
not the `-1` sentinel and the value strictly exceeds it, and a `min` bound
yields the "less than min" violation exactly when the bound is not `-1` and
the value is strictly below it.  Negative bounds other than `-1` behave as
ordinary bounds; a bound of `-1` is indistinguishable from an unset
constraint and never triggers a check. -/
theorem claim_C3 (n mi ma : Int) (f : String) (errs : List ValidationError) :
    checkIntConstraints n f ⟨-1, none, mi, ma⟩ errs =
      errs ++ (if ma ≠ -1 ∧ n > ma then [⟨Err.msg (intMaxMsg f)⟩] else [])
        ++ (if mi ≠ -1 ∧ n < mi then [⟨Err.msg (intMinMsg f)⟩] else []) := by
  rw [checkInt_decomp]
  simp [intMaxErrs, intMinErrs, intLenErrs, intInErrs, List.append_assoc]

/-- Claim C4, counterexample.  The claim includes nil among the inputs for
which `Validate` returns the `NotARecord` error; but `reflect.TypeOf(nil)` is
nil and the immediate `.Kind()` call panics, so a nil input panics instead of
returning `ErrNotStruct`. -/
theorem claim_C4_counterexample :
    Validate .anil = .panicked ∧ Validate .anil ≠ .err Err.notStruct := by
  decide

/-- Claim C4, amended: for every non-nil input whose runtime kind is not a
struct (pointers included), `Validate` returns the bare `ErrNotStruct` and
never a ViolationList, before any field processing; a nil input panics
rather than returning `NotARecord`. -/
theorem claim_C4 :
    (∀ k : String, Validate (.aother k) = .err Err.notStruct) ∧
    (∀ (k : String) (l : List ValidationError), Validate (.aother k) ≠ .errs l) ∧
    Validate .anil = .panicked := by
  refine ⟨fun k => rfl, fun k l => by simp [Validate], rfl⟩

/-- Claim C5, counterexample.  The claim says violations within one field
appear in the order max → min → len → in; but parse-time violations are
appended before check-time ones, so the tag `len:-2;max:1` on the value
`"abc"` puts the len-related "wrong length" violation before the max
violation. -/
theorem claim_C5_counterexample :
    Validate (.astruct [⟨"A", true, "len:-2;max:1", .vstr "abc"⟩]) =
      .errs [⟨Err.msg "wrong length"⟩, ⟨Err.msg (strMaxMsg "A")⟩] := by
  decide

/-- Claim C5, amended: for a record whose fields all pass the
unexported-field gate and parse without panicking, the result is the
concatenation, in field declaration order, of each field's violations, where
one field contributes its parse errors (in rule-clause order) followed by its
check violations in the order max → min → len → in (per element and in index
order for slices) — this within-field order is the definition of
`fieldViolations` via `elemViolations`; the empty concatenation is success. -/
theorem claim_C5 (fields : List Field) (h : ∀ f ∈ fields, okField f = true) :
    Validate (.astruct fields) =
      (if (fields.flatMap fieldViolations).length = 0 then .ok
       else .errs (fields.flatMap fieldViolations)) := by
  show validateFields fields [] = _
  rw [validateFields_decomp fields h []]
  simp

/-- Claim C5, witness: the amended claim applied to a concrete two-field
record (parse error before check violation on the first field, an `in`
violation on the second). -/
theorem claim_C5_witness :
    Validate (.astruct [⟨"A", true, "len:-2;max:1", .vstr "abc"⟩,
        ⟨"B", true, "in:x,y", .vstr "z"⟩]) =
      (if (([⟨"A", true, "len:-2;max:1", .vstr "abc"⟩,
            ⟨"B", true, "in:x,y", .vstr "z"⟩] : List Field).flatMap fieldViolations).length = 0
       then .ok
       else .errs (([⟨"A", true, "len:-2;max:1", .vstr "abc"⟩,
            ⟨"B", true, "in:x,y", .vstr "z"⟩] : List Field).flatMap fieldViolations)) :=
  claim_C5 [⟨"A", true, "len:-2;max:1", .vstr "abc"⟩, ⟨"B", true, "in:x,y", .vstr "z"⟩]
    (by decide)

/-- Claim C6: on an integer field, a present `len` constraint always emits an
`InvalidSyntax` violation regardless of the value, and when `len` is the only
present constraint the output is exactly that one violation, for every
value. -/
theorem claim_C6 (n : Int) (f : String) (c : Constraints) (errs : List ValidationError)
    (h : c.len ≠ -1) :
    (⟨Err.invalidValidatorSyntax⟩ : ValidationError) ∈ checkIntConstraints n f c errs ∧
    (c.max = -1 → c.min = -1 → c.in_ = none →
      checkIntConstraints n f c errs = errs ++ [⟨Err.invalidValidatorSyntax⟩]) := by
  constructor
  · rw [checkInt_decomp]
    have hl : intLenErrs f c = [⟨Err.invalidValidatorSyntax⟩] := by simp [intLenErrs, h]
    simp [hl]
  · intro hmax hmin hin
    rw [checkInt_decomp]
    simp [intMaxErrs, intMinErrs, intLenErrs, intInErrs, hmax, hmin, hin, h]

/-- Claim C6, witness: the constraint set parsed from `len:3` alone, checked
against the value 42. -/
theorem claim_C6_witness :
    (⟨Err.invalidValidatorSyntax⟩ : ValidationError) ∈
      checkIntConstraints 42 "Age" ⟨3, none, -1, -1⟩ [] ∧
    checkIntConstraints 42 "Age" ⟨3, none, -1, -1⟩ [] = [] ++ [⟨Err.invalidValidatorSyntax⟩] :=
  ⟨(claim_C6 42 "Age" ⟨3, none, -1, -1⟩ [] (by decide)).1,
   (claim_C6 42 "Age" ⟨3, none, -1, -1⟩ [] (by decide)).2 rfl rfl rfl⟩

/-- Claim C7: a slice field re-checks every element independently against the
same constraint set (int check for int-kind elements, string check
otherwise), labelling each violation with the field name plus the
zero-indexed positional suffix; concretely, `max:10` over `[5, 15, 3]` yields
exactly one violation, labelled for the index-1 element. -/
theorem claim_C7 :
    (∀ (f : String) (c : Constraints) (errs : List ValidationError) (elems : List Value),
        checkSliceConstraints elems f c errs =
          errs ++ elems.enum.flatMap
            (fun q => checkElem q.2 (f ++ " " ++ Nat.repr q.1 ++ "th element") c [])) ∧
    Validate (.astruct [⟨"A", true, "max:10", .vslice "[]int" [.vint 5, .vint 15, .vint 3]⟩]) =
      .errs [⟨Err.msg "field: A 1th element err: value can't be more than max"⟩] := by
  constructor
  · intro f c errs elems
    rw [checkSliceConstraints, checkSliceAux_decomp]
    simp [List.enum, checkElem_decomp]
  · decide

/-- Claim C8: the clause `max:abc` leaves any constraint set unchanged and
appends exactly one `InvalidSyntax` violation; parsing the whole tag
`max:abc` therefore yields the pristine constraint set (whose `max` is the
`-1` sentinel), and a pristine constraint set makes both the integer and the
string checker emit nothing, i.e. the failed `max` is treated as absent. -/
theorem claim_C8 :
    (∀ (c : Constraints) (errs : List ValidationError),
        parseOne c errs "max:abc" = some (c, errs ++ [⟨Err.invalidValidatorSyntax⟩])) ∧
    ParseConstraints "max:abc" [] = some (NewConstraints, [⟨Err.invalidValidatorSyntax⟩]) ∧
    NewConstraints.max = -1 ∧
    (∀ (n : Int) (f : String) (errs : List ValidationError),
        checkIntConstraints n f NewConstraints errs = errs) ∧
    (∀ (v : Value) (f : String) (errs : List ValidationError),
        checkStringConstraints v f NewConstraints errs = errs) := by
  refine ⟨fun c errs => rfl, by decide, rfl, fun n f errs => ?_, fun v f errs => ?_⟩
  · rw [checkInt_decomp]
    simp [intMaxErrs, intMinErrs, intLenErrs, intInErrs, NewConstraints]
  · rw [checkString_decomp]
    simp [strMaxErrs, strMinErrs, strLenErrs, strInErrs, NewConstraints]

/-- Claim C9: a clause that is a bare recognized key with no `:` separator —
the non-empty rule string `"max"` — makes the parser's `s[1]` access go out
of bounds: the parse (and hence the whole validation of a struct with that
tag) ends in a panic, so parsing is not total over non-empty rule strings. -/
theorem claim_C9 :
    "max".length ≠ 0 ∧ ParseConstraints "max" [] = none ∧
    Validate (.astruct [⟨"A", true, "max", .vint 0⟩]) = .panicked := by
  decide

/-- Claim C10: slice-element dispatch is binary — string-kind, slice-kind and
other-kind elements (everything that is not int-kind) all go through the
string checker, applied to the element's `String()` rendering, never silently
passed; concretely a `[]bool` element under `len:5` is flagged because its
rendering `"<bool Value>"` has byte length 12. -/
theorem claim_C10 :
    (∀ (s f : String) (c : Constraints) (errs : List ValidationError),
        checkElem (.vstr s) f c errs = checkStringConstraints (.vstr s) f c errs) ∧
    (∀ (t : String) (es : List Value) (f : String) (c : Constraints)
        (errs : List ValidationError),
        checkElem (.vslice t es) f c errs = checkStringConstraints (.vslice t es) f c errs) ∧
    (∀ (t f : String) (c : Constraints) (errs : List ValidationError),
        checkElem (.vother t) f c errs = checkStringConstraints (.vother t) f c errs) ∧
    Validate (.astruct [⟨"A", true, "len:5", .vslice "[]bool" [.vother "bool"]⟩]) =
      .errs [⟨Err.msg "field: A 0th element err: length must be equal to len"⟩] := by
  refine ⟨fun s f c errs => rfl, fun t es f c errs => rfl, fun t f c errs => rfl, by decide⟩

end GoValidator
